import Mathlib

/-!
# Binary streamers (`2023-03_concepts-blog`)

A shallow embedding of `binary_streamers_concepts.cpp` (the `binary_out` / `binary_in`
overload set selected by the concepts `trivial_type`, `tuple_type` and `sequence_container`)
and of `binary_streamers_sfinae.cpp` (the same pair selected by `enable_if`, in the namespace
`Sfinae`), and the properties of their wire format.

Modelling conventions.

* A byte is a `Fin 256`.  A value of a trivial type is its object representation, the list of
  its `sizeof` bytes, because the code only ever copies that representation
  (`reinterpret_cast<const char *>(&t)`).
* What the code takes from the compilation target is collected in `Target`: the width of
  `std::size_t` (the `size_type` of `std::vector` and `std::list`), the byte order of integers
  and the content of uninitialised storage.
* `std::size_t` arithmetic wraps modulo `2 ^ (8 * sizeof (std::size_t))`.
* The input stream is the list of unread bytes together with a flag that is set once a read
  found too few bytes; `std::istream::read` on a stream that is not `good()` extracts nothing.
* `binary_out` is the code on an output stream that is `good()` and accepts every write, given
  by the list of bytes written so far; `binary_out_to` is the same code on a `std::ostream`
  that may have left the `good()` state.
* `binary_in` is the code on a destination that can hold every element inserted into it;
  `read_body_throwing` is the body of the decode loop on a container of bounded capacity, whose
  `insert` throws when the container is full.
* The tuple routines.  Lines 54 and 61 are written
  `return binary_out(stream, std::get<I>(t)) + ...;` and
  `return binary_in(stream, std::get<I>(t)) + ...;`.  As written they are not fold expressions,
  because the parentheses are missing; the calls in them see only the declarations of lines
  44-48, which have no definition; and the language does not fix the order in which the
  operands of `+` are evaluated.  `write_tuple_impl` and `read_tuple_impl` give the two
  routines the meaning they are written for (a right fold, member `0` first, each member passed
  to the overload of its category), so that a tuple can stand as a member or as an element.
  What is stated below about the code concerns the trivial and the sequence overloads.
-/

namespace BinaryStreamers

/-- One `char` of a stream. -/
abbrev Byte := Fin 256

/-- The facts about the compilation target that the code depends on: `size_width` is
`sizeof (std::size_t)`, `big_endian` the byte order of integers, and `indeterminate` the byte
found in storage that was never initialised. -/
structure Target where
  size_width : Nat
  big_endian : Bool
  indeterminate : Byte

/-- The number of values of `std::size_t`. -/
def size_mod (T : Target) : Nat := 2 ^ (8 * T.size_width)

/-- Addition of two `std::size_t` values. -/
def size_add (T : Target) (a b : Nat) : Nat := (a + b) % size_mod T

/-- The `w` bytes of the unsigned integer `n`, least significant byte first. -/
def le_bytes : Nat → Nat → List Byte
  | 0, _ => []
  | w + 1, n => ⟨n % 256, Nat.mod_lt n (by decide)⟩ :: le_bytes w (n / 256)

/-- The unsigned integer whose bytes, least significant first, are `bs`. -/
def le_value : List Byte → Nat
  | [] => 0
  | b :: bs => b.val + 256 * le_value bs

/-- The object representation of the integer `n` in a type of `w` bytes. -/
def object_bytes (T : Target) (w n : Nat) : List Byte :=
  if T.big_endian then (le_bytes w n).reverse else le_bytes w n

/-- The unsigned integer whose object representation is `bs`. -/
def object_value (T : Target) (bs : List Byte) : Nat :=
  if T.big_endian then le_value bs.reverse else le_value bs

/-- The types the overload set accepts: a trivial type of `w` bytes, a `std::tuple` of member
types, and a `std::vector` or `std::list` of an element type. -/
inductive Ty where
  | scalar (w : Nat)
  | tuple (ms : List Ty)
  | seq (e : Ty)

/-- The values of those types: an object representation, the members of a tuple in index
order, the elements of a sequence in iteration order. -/
inductive Val where
  | scalar (bs : List Byte)
  | tuple (ms : List Val)
  | seq (es : List Val)

/-- The raw storage of a trivial object. -/
def Val.raw : Val → List Byte
  | .scalar bs => bs
  | _ => []

/-- The members of a tuple. -/
def Val.members : Val → List Val
  | .tuple ms => ms
  | _ => []

/-- The elements of a sequence. -/
def Val.elems : Val → List Val
  | .seq es => es
  | _ => []

mutual
/-- Static typing: the value is an object of the type. -/
def Val.has_type : Val → Ty → Bool
  | .scalar bs, .scalar w => bs.length == w
  | .tuple ms, .tuple ts => Val.have_types ms ts
  | .seq es, .seq e => Val.all_have_type es e
  | _, _ => false
/-- Static typing of the members of a tuple. -/
def Val.have_types : List Val → List Ty → Bool
  | [], [] => true
  | v :: vs, t :: ts => Val.has_type v t && Val.have_types vs ts
  | _, _ => false
/-- Static typing of the elements of a sequence. -/
def Val.all_have_type : List Val → Ty → Bool
  | [], _ => true
  | v :: vs, e => Val.has_type v e && Val.all_have_type vs e
end

mutual
/-- Every sequence inside the value has a `size()` that its `size_type` can hold. -/
def Val.in_range (T : Target) : Val → Bool
  | .scalar _ => true
  | .tuple ms => Val.all_in_range T ms
  | .seq es => decide (es.length < size_mod T) && Val.all_in_range T es
/-- The same for every value of a list. -/
def Val.all_in_range (T : Target) : List Val → Bool
  | [] => true
  | v :: vs => Val.in_range T v && Val.all_in_range T vs
end

mutual
/-- Value initialisation, which the default constructor of `std::tuple` applies to each
member: zero bytes for a trivial type, no elements for a sequence. -/
def value_init : Ty → Val
  | .scalar w => .scalar (List.replicate w 0)
  | .tuple ms => .tuple (value_init_all ms)
  | .seq _ => .seq []
/-- Value initialisation of each member type. -/
def value_init_all : List Ty → List Val
  | [] => []
  | m :: ms => value_init m :: value_init_all ms
end

/-- Default initialisation, as in `typename T::value_type element;` and `int y;`: a trivial
object is left uninitialised, a tuple and a sequence run their default constructor. -/
def default_init (T : Target) : Ty → Val
  | .scalar w => .scalar (List.replicate w T.indeterminate)
  | .tuple ms => .tuple (value_init_all ms)
  | .seq _ => .seq []

/-! ## `binary_out` (lines 51-87) -/

/-- The overload `binary_out<trivial_type T>` (lines 72-77) on a stream that is `good()` and
accepts the write:
`stream.write(reinterpret_cast<const char *>(&t), sizeof(t)); return sizeof(t);`.
For a stream that may have failed see `binary_out_trivial_to`. -/
def binary_out_trivial (stream : List Byte) (t : List Byte) : List Byte × Nat :=
  (stream ++ t, t.length)

mutual
/-- The overload set `binary_out` (lines 64-87); the result is the stream after the call and
the returned `std::size_t`.  A sequence writes `t.size()` through the trivial overload and then
runs the range-for loop. -/
def binary_out (T : Target) : List Byte → Val → List Byte × Nat
  | stream, .scalar bs => binary_out_trivial stream bs
  | stream, .tuple ms => write_tuple_impl T stream ms
  | stream, .seq es =>
    let r := binary_out_trivial stream (object_bytes T T.size_width es.length)
    write_elements T r.1 r.2 es
/-- The meaning `write_tuple_impl` (lines 51-55) is written for: the right fold
`E0 + (E1 + (... + En))` of the calls `binary_out(stream, std::get<I>(t))`, member `0` first,
each call running the overload of the member's category.  Line 54 itself,
`return binary_out(stream, std::get<I>(t)) + ...;`, lacks the parentheses of a fold expression,
its calls see only the declaration of lines 44-45, and the order of the operands of `+` is left
open by the language.  The case `[]` belongs to no call of the code: `std::tuple<>` does not
satisfy `tuple_type`. -/
def write_tuple_impl (T : Target) : List Byte → List Val → List Byte × Nat
  | stream, [] => (stream, 0)
  | stream, [m] => binary_out T stream m
  | stream, m :: m2 :: ms =>
    let r := binary_out T stream m
    let rs := write_tuple_impl T r.1 (m2 :: ms)
    (rs.1, size_add T r.2 rs.2)
/-- The loop `for (const auto & element : t) bytes_written += binary_out(stream, element);`
(lines 83-85). -/
def write_elements (T : Target) : List Byte → Nat → List Val → List Byte × Nat
  | stream, bytes_written, [] => (stream, bytes_written)
  | stream, bytes_written, element :: es =>
    let r := binary_out T stream element
    write_elements T r.1 (size_add T bytes_written r.2) es
end

/-- The bytes `binary_out` appends to an empty stream. -/
def written (T : Target) (v : Val) : List Byte := (binary_out T [] v).1

/-! ## `binary_in` (lines 57-62 and 89-116) -/

/-- An input stream: the bytes not yet extracted, and whether the stream has left the
`good()` state. -/
structure IStream where
  data : List Byte
  failed : Bool

/-- The call `stream.read(s, n)` on storage holding `buf`: nothing happens on a stream that is
not `good()`; otherwise `n` bytes are stored, or, when fewer are left, those that are left are
stored and `failbit | eofbit` is set. -/
def IStream.read (stream : IStream) (buf : List Byte) (n : Nat) : IStream × List Byte :=
  if stream.failed then (stream, buf)
  else if n ≤ stream.data.length then
    (⟨stream.data.drop n, false⟩, stream.data.take n ++ buf.drop n)
  else (⟨[], true⟩, stream.data ++ buf.drop stream.data.length)

/-- The number of bytes extracted between two states of a stream. -/
def IStream.consumed (before after : IStream) : Nat := before.data.length - after.data.length

/-- The overload `binary_in<trivial_type T>` (lines 89-94) for a type of `w` bytes:
`stream.read(reinterpret_cast<char *>(&t), sizeof(t)); return sizeof(t);`. -/
def binary_in_trivial (stream : IStream) (t : List Byte) (w : Nat) : IStream × List Byte × Nat :=
  let r := stream.read t w
  (r.1, r.2, w)

/-- The loop `for (size_type to_read = elements; to_read-- > 0; )` of lines 110-114, with
`step` the element overload of `binary_in` and `fresh` the default-initialised `element`:
each round reads into a fresh element, adds the returned count and inserts at `t.end()`.
The destination can hold every element inserted; for a container of bounded capacity, whose
`insert` throws, see `read_body_throwing` and `countdown_loop_throwing`. -/
def read_loop (T : Target) (step : IStream → Val → IStream × Val × Nat) (fresh : Val) :
    Nat → IStream → List Val → Nat → IStream × List Val × Nat
  | 0, stream, t, bytes_read => (stream, t, bytes_read)
  | to_read + 1, stream, t, bytes_read =>
    let r := step stream fresh
    read_loop T step fresh to_read r.1 (t ++ [r.2.1]) (size_add T bytes_read r.2.2)

mutual
/-- The overload set `binary_in` (lines 89-116) at the static type given first; the result is
the stream after the call, the destination after the call and the returned `std::size_t`. -/
def binary_in (T : Target) : Ty → IStream → Val → IStream × Val × Nat
  | .scalar w, stream, t =>
    let r := binary_in_trivial stream t.raw w
    (r.1, .scalar r.2.1, r.2.2)
  | .tuple ms, stream, t =>
    let r := read_tuple_impl T ms stream t.members
    (r.1, .tuple r.2.1, r.2.2)
  | .seq e, stream, t =>
    let r := binary_in_trivial stream (List.replicate T.size_width T.indeterminate) T.size_width
    let elements := object_value T r.2.1
    let l := read_loop T (binary_in T e) (default_init T e) elements r.1 t.elems r.2.2
    (l.1, .seq l.2.1, l.2.2)
/-- The meaning `read_tuple_impl` (lines 57-62) is written for: the right fold of the calls
`binary_in(stream, std::get<I>(t))`, member `0` first, each member decoded into its own slot of
`t` by the overload of its category.  Line 61 itself,
`return binary_in(stream, std::get<I>(t)) + ...;`, lacks the parentheses of a fold expression,
its calls see only the declaration of lines 47-48, and the order of the operands of `+` is left
open by the language.  The case `[]` belongs to no call of the code. -/
def read_tuple_impl (T : Target) : List Ty → IStream → List Val → IStream × List Val × Nat
  | [], stream, t => (stream, t, 0)
  | [m], stream, t =>
    let r := binary_in T m stream (t.headD (value_init m))
    (r.1, r.2.1 :: t.tail, r.2.2)
  | m :: m2 :: ms, stream, t =>
    let r := binary_in T m stream (t.headD (value_init m))
    let rs := read_tuple_impl T (m2 :: ms) r.1 t.tail
    (rs.1, r.2.1 :: rs.2.1, size_add T r.2.2 rs.2.2)
end

mutual
/-- What a destination holds after a value was decoded into it: a trivial object and the
members of a tuple are overwritten, the elements of a sequence are inserted at the end. -/
def Val.decoded_into : Val → Val → Val
  | .scalar bs, _ => .scalar bs
  | .tuple ms, d => .tuple (Val.all_decoded_into ms d.members)
  | .seq es, d => .seq (d.elems ++ es)
/-- Member by member. -/
def Val.all_decoded_into : List Val → List Val → List Val
  | [], ds => ds
  | m :: ms, ds => Val.decoded_into m (ds.headD m) :: Val.all_decoded_into ms ds.tail
end

mutual
/-- A destination of the type that holds no sequence element yet. -/
def Val.is_blank : Val → Ty → Bool
  | .scalar bs, .scalar w => bs.length == w
  | .tuple ms, .tuple ts => Val.are_blank ms ts
  | .seq es, .seq _ => es.isEmpty
  | _, _ => false
/-- Member by member. -/
def Val.are_blank : List Val → List Ty → Bool
  | [], [] => true
  | v :: vs, t :: ts => Val.is_blank v t && Val.are_blank vs ts
  | _, _ => false
end

/-! ## Overload resolution (lines 27-48 and 64-116) -/

/-- The three constraints of lines 27-42 evaluated on one type. -/
structure Constraints where
  trivial_type : Bool
  tuple_type : Bool
  sequence_container : Bool

/-- The function templates named `binary_out` (and in the same way `binary_in`): the
declaration without a constraint of lines 44-48, which has no definition, and the three
constrained overloads of lines 64-87 (89-116). -/
inductive Overload where
  | declared
  | tuple
  | trivial
  | sequence
  deriving DecidableEq

/-- The overload set in declaration order. -/
def Overload.all : List Overload := [.declared, .tuple, .trivial, .sequence]

/-- A template is a candidate for a call when the type satisfies its constraint. -/
def Overload.viable (c : Constraints) : Overload → Bool
  | .declared => true
  | .tuple => c.tuple_type
  | .trivial => c.trivial_type
  | .sequence => c.sequence_container

/-- The partial order of the templates by their constraints: each constrained overload is more
constrained than the unconstrained declaration, and since the three concepts are built from
different atomic constraints, no constrained overload is more constrained than another. -/
def Overload.more_constrained : Overload → Overload → Bool
  | .declared, _ => false
  | _, .declared => true
  | _, _ => false

/-- Overload resolution of a call `binary_out(stream, t)`: the candidate that is more
constrained than every other candidate, and no overload when there is none (the call is
ambiguous). -/
def resolve (c : Constraints) : Option Overload :=
  Overload.all.find? (fun f => f.viable c &&
    Overload.all.all (fun g => g == f || !g.viable c || f.more_constrained g))

/-! ## Targets and the values of `main` -/

/-- A target with an 8-byte `std::size_t`, least significant byte first. -/
def LP64 : Target := ⟨8, false, 0⟩

/-- A target with a 4-byte `std::size_t`, least significant byte first. -/
def ILP32 : Target := ⟨4, false, 0⟩

/-- The type `int`, four bytes wide. -/
def int_type : Ty := .scalar 4

/-- An `int` of the given value. -/
def int_val (T : Target) (n : Nat) : Val := .scalar (object_bytes T 4 n)

/-- The value `std::vector<int>{1, 2, 3}` of line 124. -/
def vector_123 (T : Target) : Val := .seq [int_val T 1, int_val T 2, int_val T 3]

/-- A `double` given by the 64 bits of its representation. -/
def double_val (T : Target) (bits : Nat) : Val := .scalar (object_bytes T 8 bits)

/-- The value `std::vector<std::list<double>>` of lines 139-140, the sequence of the two
sequences `{M_PI, M_E, M_SQRT2}` and `{3, 2, 1}`. -/
def nested_lists (T : Target) : Val :=
  .seq [.seq [double_val T 0x400921FB54442D18, double_val T 0x4005BF0A8B145769,
      double_val T 0x3FF6A09E667F3BCD],
    .seq [double_val T 0x4008000000000000, double_val T 0x4000000000000000,
      double_val T 0x3FF0000000000000]]

/-! ## The loop header of line 110 -/

/-- The call `t.insert(t.end(), element)` on a `std::set` whose elements are, in iteration
order, `t`, with `less` the comparison of the set: an element equivalent to one that is present
is not inserted, any other element takes its place in the order.  The hint `t.end()` has no
effect on the result. -/
def set_insert (less : Val → Val → Bool) : List Val → Val → List Val
  | [], element => [element]
  | a :: t, element =>
    if less element a then element :: a :: t
    else if less a element then a :: set_insert less t element
    else a :: t

/-- The loop of lines 110-114 when `t` is a `std::set`. -/
def read_loop_set (T : Target) (less : Val → Val → Bool)
    (step : IStream → Val → IStream × Val × Nat) (fresh : Val) :
    Nat → IStream → List Val → Nat → IStream × List Val × Nat
  | 0, stream, t, bytes_read => (stream, t, bytes_read)
  | to_read + 1, stream, t, bytes_read =>
    let r := step stream fresh
    read_loop_set T less step fresh to_read r.1 (set_insert less t r.2.1)
      (size_add T bytes_read r.2.2)

/-- The overload `binary_in<sequence_container T>` (lines 104-116) at a `std::set` of elements
of type `e`; the set is given by its elements in iteration order. -/
def binary_in_set (T : Target) (less : Val → Val → Bool) (e : Ty) (stream : IStream)
    (t : List Val) : IStream × List Val × Nat :=
  let r := binary_in_trivial stream (List.replicate T.size_width T.indeterminate) T.size_width
  let elements := object_value T r.2.1
  read_loop_set T less (binary_in T e) (default_init T e) elements r.1 t r.2.2

/-- The comparison `<` of two unsigned integers given by their object representations. -/
def unsigned_less (T : Target) (a b : Val) : Bool :=
  decide (object_value T a.raw < object_value T b.raw)

/-! ## `binary_streamers_sfinae.cpp` -/

namespace Sfinae

/-- The types the `enable_if` overloads of `binary_streamers_sfinae.cpp` accept: a POD type of
`w` bytes (lines 37-41), and a `std::vector` or `std::list` of an element type, the two
specialisations of `is_container` (lines 21-28). -/
inductive Ty where
  | pod (w : Nat)
  | container (e : Ty)

/-- The values of those types: an object representation, and the elements of a container in
iteration order. -/
inductive Val where
  | pod (bs : List Byte)
  | container (es : List Val)

/-- The raw storage of a POD object. -/
def Val.raw : Val → List Byte
  | .pod bs => bs
  | .container _ => []

/-- The elements of a container. -/
def Val.elems : Val → List Val
  | .pod _ => []
  | .container es => es

/-- Default initialisation, as in `typename T::value_type element;` (line 84). -/
def default_init (T : Target) : Ty → Val
  | .pod w => .pod (List.replicate w T.indeterminate)
  | .container _ => .container []

/-- The POD overload of `binary_out` (lines 37-46):
`stream.write(reinterpret_cast<const char *>(&t), sizeof(t)); return sizeof(t);`. -/
def binary_out_pod (stream : List Byte) (t : List Byte) : List Byte × Nat :=
  (stream ++ t, t.length)

mutual
/-- The overloads of `binary_out` (lines 37-60). -/
def binary_out (T : Target) : List Byte → Val → List Byte × Nat
  | stream, .pod bs => binary_out_pod stream bs
  | stream, .container es =>
    let r := binary_out_pod stream (object_bytes T T.size_width es.length)
    write_elements T r.1 r.2 es
/-- The loop `for (const auto & element : t) bytes_written += binary_out(stream, element);`
(lines 56-58). -/
def write_elements (T : Target) : List Byte → Nat → List Val → List Byte × Nat
  | stream, bytes_written, [] => (stream, bytes_written)
  | stream, bytes_written, element :: es =>
    let r := binary_out T stream element
    write_elements T r.1 (size_add T bytes_written r.2) es
end

/-- The POD overload of `binary_in` (lines 62-71):
`stream.read(reinterpret_cast<char *>(&t), sizeof(t)); return sizeof(t);`. -/
def binary_in_pod (stream : IStream) (t : List Byte) (w : Nat) : IStream × List Byte × Nat :=
  let r := stream.read t w
  (r.1, r.2, w)

/-- The loop `for (size_type to_read = elements; to_read-- > 0; )` of lines 83-87: each round
reads into a fresh element, adds the returned count and calls
`t.emplace_back(std::move(element))`. -/
def read_loop (T : Target) (step : IStream → Val → IStream × Val × Nat) (fresh : Val) :
    Nat → IStream → List Val → Nat → IStream × List Val × Nat
  | 0, stream, t, bytes_read => (stream, t, bytes_read)
  | to_read + 1, stream, t, bytes_read =>
    let r := step stream fresh
    read_loop T step fresh to_read r.1 (t ++ [r.2.1]) (size_add T bytes_read r.2.2)

/-- The overloads of `binary_in` (lines 62-89) at the static type given first. -/
def binary_in (T : Target) : Ty → IStream → Val → IStream × Val × Nat
  | .pod w, stream, t =>
    let r := binary_in_pod stream t.raw w
    (r.1, .pod r.2.1, r.2.2)
  | .container e, stream, t =>
    let r := binary_in_pod stream (List.replicate T.size_width T.indeterminate) T.size_width
    let elements := object_value T r.2.1
    let l := read_loop T (binary_in T e) (default_init T e) elements r.1 t.elems r.2.2
    (l.1, .container l.2.1, l.2.2)

/-- The same type as a type of `binary_streamers_concepts.cpp`. -/
def Ty.as_concepts : Ty → BinaryStreamers.Ty
  | .pod w => .scalar w
  | .container e => .seq e.as_concepts

mutual
/-- The same value as a value of `binary_streamers_concepts.cpp`. -/
def Val.as_concepts : Val → BinaryStreamers.Val
  | .pod bs => .scalar bs
  | .container es => .seq (Val.all_as_concepts es)
/-- Element by element. -/
def Val.all_as_concepts : List Val → List BinaryStreamers.Val
  | [] => []
  | v :: vs => Val.as_concepts v :: Val.all_as_concepts vs
end

end Sfinae

/-! ## `binary_out` on a `std::ostream` that may have failed (lines 72-87) -/

/-- An output stream: the bytes written so far, and whether the stream has left the `good()`
state, as a `std::ofstream` has whose file could not be opened. -/
structure OStream where
  data : List Byte
  failed : Bool

/-- The call `stream.write(s, n)`: a stream that is not `good()` writes nothing; a stream that
is `good()` takes the bytes, the sink behind it being one that accepts them. -/
def OStream.write (stream : OStream) (bytes : List Byte) : OStream :=
  if stream.failed then stream else ⟨stream.data ++ bytes, false⟩

/-- The overload `binary_out<trivial_type T>` (lines 72-77):
`stream.write(reinterpret_cast<const char *>(&t), sizeof(t)); return sizeof(t);`, where the
returned `sizeof(t)` does not depend on what became of the write. -/
def binary_out_trivial_to (stream : OStream) (t : List Byte) : OStream × Nat :=
  (stream.write t, t.length)

mutual
/-- The overload set `binary_out` (lines 64-87) on such a stream. -/
def binary_out_to (T : Target) : OStream → Val → OStream × Nat
  | stream, .scalar bs => binary_out_trivial_to stream bs
  | stream, .tuple ms => write_tuple_impl_to T stream ms
  | stream, .seq es =>
    let r := binary_out_trivial_to stream (object_bytes T T.size_width es.length)
    write_elements_to T r.1 r.2 es
/-- The meaning `write_tuple_impl` is written for, with the reservations stated at the
definition `write_tuple_impl`; the statements about `binary_out_to` are about values that hold
no tuple and do not reach it. -/
def write_tuple_impl_to (T : Target) : OStream → List Val → OStream × Nat
  | stream, [] => (stream, 0)
  | stream, [m] => binary_out_to T stream m
  | stream, m :: m2 :: ms =>
    let r := binary_out_to T stream m
    let rs := write_tuple_impl_to T r.1 (m2 :: ms)
    (rs.1, size_add T r.2 rs.2)
/-- The loop `for (const auto & element : t) bytes_written += binary_out(stream, element);`
(lines 83-85). -/
def write_elements_to (T : Target) : OStream → Nat → List Val → OStream × Nat
  | stream, bytes_written, [] => (stream, bytes_written)
  | stream, bytes_written, element :: es =>
    let r := binary_out_to T stream element
    write_elements_to T r.1 (size_add T bytes_written r.2) es
end

mutual
/-- The value holds no tuple: it is built from trivial objects and sequences only, so that
`binary_out` and `binary_in` run the trivial and the sequence overloads and nothing else. -/
def Val.tuple_free : Val → Bool
  | .scalar _ => true
  | .tuple _ => false
  | .seq es => Val.all_tuple_free es
/-- The same for every value of a list. -/
def Val.all_tuple_free : List Val → Bool
  | [] => true
  | v :: vs => Val.tuple_free v && Val.all_tuple_free vs
end

/-! ## The decode loop on a container of bounded capacity (lines 110-114) -/

theorem le_bytes_length (w n : Nat) : (le_bytes w n).length = w := by
  induction w generalizing n with
  | zero => rfl
  | succ w ih => simp [le_bytes, ih]

theorem le_value_le_bytes (w n : Nat) : le_value (le_bytes w n) = n % 256 ^ w := by
  induction w generalizing n with
  | zero => simp [le_bytes, le_value, Nat.mod_one]
  | succ w ih =>
    simp only [le_bytes, le_value, ih]
    rw [pow_succ, Nat.mul_comm (256 ^ w) 256, Nat.mod_mul]

theorem object_bytes_length (T : Target) (w n : Nat) : (object_bytes T w n).length = w := by
  unfold object_bytes
  split <;> simp [le_bytes_length]

theorem object_value_object_bytes (T : Target) (w n : Nat) :
    object_value T (object_bytes T w n) = n % 256 ^ w := by
  unfold object_value object_bytes
  split <;> simp [le_value_le_bytes]

theorem size_mod_eq (T : Target) : size_mod T = 256 ^ T.size_width := by
  unfold size_mod
  rw [pow_mul]
  norm_num

theorem size_mod_pos (T : Target) : 0 < size_mod T := by
  unfold size_mod
  positivity

theorem object_value_size (T : Target) (n : Nat) (h : n < size_mod T) :
    object_value T (object_bytes T T.size_width n) = n := by
  rw [object_value_object_bytes, ← size_mod_eq, Nat.mod_eq_of_lt h]

theorem le_bytes_zero (w : Nat) : le_bytes w 0 = List.replicate w 0 := by
  induction w with
  | zero => rfl
  | succ w ih =>
    simp only [le_bytes, Nat.zero_mod, Nat.zero_div, ih, List.replicate_succ]
    rfl

theorem object_bytes_zero (T : Target) (w : Nat) : object_bytes T w 0 = List.replicate w 0 := by
  unfold object_bytes
  split <;> simp [le_bytes_zero]

theorem size_mod_large (T : Target) (h : 0 < T.size_width) :
    T.size_width + 12 < size_mod T := by
  rw [size_mod_eq]
  have key : ∀ n : Nat, n + 1 + 12 < 256 ^ (n + 1) := by
    intro n
    induction n with
    | zero => norm_num
    | succ n ih =>
      rw [pow_succ]
      omega
  obtain ⟨n, hn⟩ := Nat.exists_eq_succ_of_ne_zero (Nat.pos_iff_ne_zero.mp h)
  rw [hn]
  exact key n

/-! ## The input stream -/

theorem read_exact (bs rest buf : List Byte) (n : Nat) (hn : bs.length = n)
    (hb : buf.length = n) :
    IStream.read ⟨bs ++ rest, false⟩ buf n = (⟨rest, false⟩, bs) := by
  subst hn
  simp [IStream.read, hb]

theorem read_failed (s : IStream) (buf : List Byte) (n : Nat) (h : s.failed = true) :
    IStream.read s buf n = (s, buf) := by
  simp [IStream.read, h]

theorem read_short (p buf : List Byte) (n : Nat) (h : p.length < n) :
    (IStream.read ⟨p, false⟩ buf n).1 = ⟨[], true⟩ := by
  simp [IStream.read, Nat.not_le.mpr h]

/-! ## What `binary_out` writes and returns -/

mutual
theorem binary_out_fst (T : Target) : ∀ (v : Val) (stream : List Byte),
    (binary_out T stream v).1 = stream ++ written T v
  | .scalar bs, stream => by simp [binary_out, written, binary_out_trivial]
  | .tuple ms, stream => by
    simp only [binary_out, written]
    rw [write_tuple_impl_fst T ms stream, write_tuple_impl_fst T ms []]
    simp
  | .seq es, stream => by
    simp only [binary_out, written]
    rw [write_elements_fst T es, write_elements_fst T es (binary_out_trivial [] _).1]
    simp [binary_out_trivial]
theorem write_tuple_impl_fst (T : Target) : ∀ (ms : List Val) (stream : List Byte),
    (write_tuple_impl T stream ms).1 = stream ++ (ms.map (written T)).flatten
  | [], stream => by simp [write_tuple_impl]
  | [m], stream => by simp [write_tuple_impl, binary_out_fst T m stream]
  | m :: m2 :: ms, stream => by
    simp only [write_tuple_impl]
    rw [write_tuple_impl_fst T (m2 :: ms), binary_out_fst T m stream]
    simp
theorem write_elements_fst (T : Target) : ∀ (es : List Val) (stream : List Byte) (n : Nat),
    (write_elements T stream n es).1 = stream ++ (es.map (written T)).flatten
  | [], stream, n => by simp [write_elements]
  | e :: es, stream, n => by
    simp only [write_elements]
    rw [write_elements_fst T es, binary_out_fst T e stream]
    simp
end

mutual
theorem binary_out_snd (T : Target) : ∀ (v : Val) (stream : List Byte),
    (binary_out T stream v).2 = (binary_out T [] v).2
  | .scalar bs, stream => by simp [binary_out, binary_out_trivial]
  | .tuple ms, stream => by
    simp only [binary_out]
    exact write_tuple_impl_snd T ms stream
  | .seq es, stream => by
    simp only [binary_out]
    rw [write_elements_snd T es, write_elements_snd T es (binary_out_trivial [] _).1]
    simp [binary_out_trivial]
theorem write_tuple_impl_snd (T : Target) : ∀ (ms : List Val) (stream : List Byte),
    (write_tuple_impl T stream ms).2 = (write_tuple_impl T [] ms).2
  | [], stream => by simp [write_tuple_impl]
  | [m], stream => by simp [write_tuple_impl, binary_out_snd T m stream]
  | m :: m2 :: ms, stream => by
    simp only [write_tuple_impl]
    rw [write_tuple_impl_snd T (m2 :: ms), binary_out_snd T m stream,
      write_tuple_impl_snd T (m2 :: ms) (binary_out T [] m).1]
theorem write_elements_snd (T : Target) : ∀ (es : List Val) (stream : List Byte) (n : Nat),
    (write_elements T stream n es).2 = (write_elements T [] n es).2
  | [], stream, n => by simp [write_elements]
  | e :: es, stream, n => by
    simp only [write_elements]
    rw [write_elements_snd T es, binary_out_snd T e stream,
      write_elements_snd T es (binary_out T [] e).1]
end

theorem written_scalar (T : Target) (bs : List Byte) : written T (.scalar bs) = bs := by
  simp [written, binary_out, binary_out_trivial]

theorem written_tuple (T : Target) (ms : List Val) :
    written T (.tuple ms) = (ms.map (written T)).flatten := by
  simp [written, binary_out, write_tuple_impl_fst]

theorem written_seq (T : Target) (es : List Val) :
    written T (.seq es) =
      object_bytes T T.size_width es.length ++ (es.map (written T)).flatten := by
  simp [written, binary_out, write_elements_fst, binary_out_trivial]

mutual
theorem binary_out_count (T : Target) : ∀ (v : Val) (stream : List Byte),
    (written T v).length < size_mod T → (binary_out T stream v).2 = (written T v).length
  | .scalar bs, stream, _ => by simp [binary_out, written, binary_out_trivial]
  | .tuple ms, stream, h => by
    rw [written_tuple] at h ⊢
    simp only [binary_out]
    exact write_tuple_impl_count T ms stream h
  | .seq es, stream, h => by
    rw [written_seq] at h ⊢
    simp only [binary_out, binary_out_trivial]
    rw [write_elements_count T es _ _ (by simpa using h)]
    simp
theorem write_tuple_impl_count (T : Target) : ∀ (ms : List Val) (stream : List Byte),
    ((ms.map (written T)).flatten).length < size_mod T →
      (write_tuple_impl T stream ms).2 = ((ms.map (written T)).flatten).length
  | [], stream, _ => by simp [write_tuple_impl]
  | [m], stream, h => by
    simp only [write_tuple_impl]
    rw [binary_out_count T m stream (by simpa using h)]
    simp
  | m :: m2 :: ms, stream, h => by
    simp only [write_tuple_impl]
    have h1 : (written T m).length + (((m2 :: ms).map (written T)).flatten).length
        < size_mod T := by simpa using h
    rw [binary_out_count T m stream (by omega),
      write_tuple_impl_count T (m2 :: ms) _ (by omega)]
    unfold size_add
    rw [Nat.mod_eq_of_lt h1]
    simp
theorem write_elements_count (T : Target) : ∀ (es : List Val) (stream : List Byte) (n : Nat),
    n + ((es.map (written T)).flatten).length < size_mod T →
      (write_elements T stream n es).2 = n + ((es.map (written T)).flatten).length
  | [], stream, n, _ => by simp [write_elements]
  | e :: es, stream, n, h => by
    simp only [write_elements]
    have h1 : n + ((written T e).length + ((es.map (written T)).flatten).length)
        < size_mod T := by simpa using h
    rw [binary_out_count T e stream (by omega)]
    have h2 : size_add T n (written T e).length = n + (written T e).length := by
      unfold size_add
      exact Nat.mod_eq_of_lt (by omega)
    rw [h2, write_elements_count T es _ _ (by omega)]
    simp
    omega
end

/-! ## Destinations -/

mutual
theorem is_blank_has_type : ∀ (d : Val) (t : Ty), d.is_blank t = true → d.has_type t = true
  | .scalar bs, t, h => by
    cases t <;> simp_all [Val.is_blank, Val.has_type]
  | .tuple ms, t, h => by
    cases t <;> simp_all [Val.is_blank, Val.has_type]
    exact are_blank_have_types ms _ h
  | .seq es, t, h => by
    cases t <;> simp_all [Val.is_blank, Val.has_type, Val.all_have_type]
theorem are_blank_have_types : ∀ (ds : List Val) (ts : List Ty),
    Val.are_blank ds ts = true → Val.have_types ds ts = true
  | [], ts, h => by
    cases ts <;> simp_all [Val.are_blank, Val.have_types]
  | d :: ds, ts, h => by
    cases ts with
    | nil => simp [Val.are_blank] at h
    | cons t ts =>
      simp only [Val.are_blank, Bool.and_eq_true] at h
      simp only [Val.have_types, Bool.and_eq_true]
      exact ⟨is_blank_has_type d t h.1, are_blank_have_types ds ts h.2⟩
end

mutual
theorem value_init_blank : ∀ (t : Ty), (value_init t).is_blank t = true
  | .scalar w => by simp [value_init, Val.is_blank]
  | .tuple ms => by
    simp only [value_init, Val.is_blank]
    exact value_init_all_blank ms
  | .seq e => by simp [value_init, Val.is_blank]
theorem value_init_all_blank : ∀ (ts : List Ty), Val.are_blank (value_init_all ts) ts = true
  | [] => by simp [value_init_all, Val.are_blank]
  | t :: ts => by
    simp only [value_init_all, Val.are_blank, Bool.and_eq_true]
    exact ⟨value_init_blank t, value_init_all_blank ts⟩
end

theorem default_init_blank (T : Target) (t : Ty) : (default_init T t).is_blank t = true := by
  cases t with
  | scalar w => simp [default_init, Val.is_blank]
  | tuple ms =>
    simp only [default_init, Val.is_blank]
    exact value_init_all_blank ms
  | seq e => simp [default_init, Val.is_blank]

mutual
theorem decoded_into_blank : ∀ (v : Val) (t : Ty) (d : Val),
    v.has_type t = true → d.is_blank t = true → v.decoded_into d = v
  | .scalar bs, t, d, _, _ => by simp [Val.decoded_into]
  | .tuple ms, t, d, hv, hd => by
    cases t <;> cases d <;> simp_all [Val.is_blank, Val.has_type, Val.decoded_into, Val.members]
    exact all_decoded_into_blank ms _ _ hv hd
  | .seq es, t, d, hv, hd => by
    cases t <;> cases d <;> simp_all [Val.is_blank, Val.has_type, Val.decoded_into, Val.elems]
theorem all_decoded_into_blank : ∀ (ms : List Val) (ts : List Ty) (ds : List Val),
    Val.have_types ms ts = true → Val.are_blank ds ts = true → Val.all_decoded_into ms ds = ms
  | [], ts, ds, hv, hd => by
    cases ts <;> cases ds <;> simp_all [Val.have_types, Val.are_blank, Val.all_decoded_into]
  | m :: ms, ts, ds, hv, hd => by
    cases ts with
    | nil => simp [Val.have_types] at hv
    | cons t ts =>
      cases ds with
      | nil => simp [Val.are_blank] at hd
      | cons d ds =>
        simp only [Val.have_types, Val.are_blank, Bool.and_eq_true] at hv hd
        simp only [Val.all_decoded_into, List.headD_cons, List.tail_cons]
        rw [decoded_into_blank m t d hv.1 hd.1, all_decoded_into_blank ms ts ds hv.2 hd.2]
end

/-! ## A stream that is not `good()` -/

theorem read_loop_failed (T : Target) (step : IStream → Val → IStream × Val × Nat)
    (fresh : Val) (hstep : ∀ s d, s.failed = true → (step s d).1 = s) :
    ∀ (n : Nat) (s : IStream) (t : List Val) (acc : Nat), s.failed = true →
      (read_loop T step fresh n s t acc).1 = s := by
  intro n
  induction n with
  | zero => intro s t acc _; rfl
  | succ n ih =>
    intro s t acc h
    simp only [read_loop]
    rw [hstep s fresh h]
    exact ih s _ _ h

mutual
theorem binary_in_failed (T : Target) : ∀ (t : Ty) (s : IStream) (d : Val),
    s.failed = true → (binary_in T t s d).1 = s
  | .scalar w, s, d, h => by
    simp [binary_in, binary_in_trivial, read_failed _ _ _ h]
  | .tuple ms, s, d, h => by
    simp only [binary_in]
    exact read_tuple_impl_failed T ms s _ h
  | .seq e, s, d, h => by
    simp only [binary_in, binary_in_trivial, read_failed _ _ _ h]
    exact read_loop_failed T _ _ (fun s2 d2 h2 => binary_in_failed T e s2 d2 h2) _ _ _ _ h
theorem read_tuple_impl_failed (T : Target) : ∀ (ts : List Ty) (s : IStream) (ds : List Val),
    s.failed = true → (read_tuple_impl T ts s ds).1 = s
  | [], s, ds, _ => by simp [read_tuple_impl]
  | [m], s, ds, h => by
    simp only [read_tuple_impl]
    exact binary_in_failed T m s _ h
  | m :: m2 :: ms, s, ds, h => by
    simp only [read_tuple_impl]
    rw [binary_in_failed T m s _ h]
    exact read_tuple_impl_failed T (m2 :: ms) s _ h
end

/-! ## Decoding a complete encoding -/

mutual
theorem binary_in_written (T : Target) : ∀ (v : Val) (t : Ty) (d : Val) (rest : List Byte),
    v.has_type t = true → v.in_range T = true → d.has_type t = true →
      binary_in T t ⟨written T v ++ rest, false⟩ d =
        (⟨rest, false⟩, v.decoded_into d, (binary_out T [] v).2)
  | .scalar bs, t, d, rest, hv, _, hd => by
    cases t <;> cases d <;> simp_all [Val.has_type]
    rename_i w db
    subst hv
    simp [binary_in, binary_in_trivial, written_scalar, Val.raw, read_exact bs rest db _ rfl hd,
      Val.decoded_into, binary_out, binary_out_trivial]
  | .tuple ms, t, d, rest, hv, hr, hd => by
    cases t <;> cases d <;> simp_all [Val.has_type]
    rename_i ts ds
    simp only [Val.in_range] at hr
    simp only [binary_in, written_tuple, Val.members, Val.decoded_into, binary_out]
    rw [read_tuple_impl_written T ms ts ds rest hv hr hd]
  | .seq es, t, d, rest, hv, hr, hd => by
    cases t <;> cases d <;> simp_all [Val.has_type]
    rename_i e ds
    simp only [Val.in_range, Bool.and_eq_true, decide_eq_true_eq] at hr
    simp only [binary_in, binary_in_trivial, written_seq, Val.elems, Val.decoded_into,
      binary_out, binary_out_trivial, List.append_assoc]
    rw [read_exact _ _ _ T.size_width (object_bytes_length _ _ _) (by simp)]
    simp only [object_value_size T _ hr.1]
    rw [read_loop_written T es e ds T.size_width rest hv hr.2, object_bytes_length,
      write_elements_snd T es ([] ++ _)]
theorem read_tuple_impl_written (T : Target) : ∀ (ms : List Val) (ts : List Ty)
    (ds : List Val) (rest : List Byte),
    Val.have_types ms ts = true → Val.all_in_range T ms = true → Val.have_types ds ts = true →
      read_tuple_impl T ts ⟨(ms.map (written T)).flatten ++ rest, false⟩ ds =
        (⟨rest, false⟩, Val.all_decoded_into ms ds, (write_tuple_impl T [] ms).2)
  | [], ts, ds, rest, hv, _, hd => by
    cases ts <;> cases ds <;>
      simp_all [Val.have_types, read_tuple_impl, Val.all_decoded_into, write_tuple_impl]
  | [m], ts, ds, rest, hv, hr, hd => by
    cases ts with
    | nil => simp [Val.have_types] at hv
    | cons t ts =>
      cases ds with
      | nil => simp [Val.have_types] at hd
      | cons d ds =>
        cases ts with
        | cons t2 ts => simp [Val.have_types] at hv
        | nil =>
          cases ds with
          | cons d2 ds => simp [Val.have_types] at hd
          | nil =>
            simp only [Val.have_types, Val.all_in_range, Bool.and_eq_true] at hv hr hd
            simp only [read_tuple_impl, List.map_cons, List.map_nil, List.flatten_cons,
              List.flatten_nil, List.append_nil, List.headD_cons, List.tail_cons,
              Val.all_decoded_into, write_tuple_impl]
            rw [binary_in_written T m t d rest hv.1 hr.1 hd.1]
  | m :: m2 :: ms, ts, ds, rest, hv, hr, hd => by
    cases ts with
    | nil => simp [Val.have_types] at hv
    | cons t ts =>
      cases ds with
      | nil => simp [Val.have_types] at hd
      | cons d ds =>
        cases ts with
        | nil => simp [Val.have_types] at hv
        | cons t2 ts =>
          simp only [Val.have_types, Val.all_in_range, Bool.and_eq_true] at hv hr hd
          have hv2 : Val.have_types (m2 :: ms) (t2 :: ts) = true := by
            simp only [Val.have_types, Bool.and_eq_true]; exact hv.2
          have hr2 : Val.all_in_range T (m2 :: ms) = true := by
            simp only [Val.all_in_range, Bool.and_eq_true]; exact hr.2
          have ih := read_tuple_impl_written T (m2 :: ms) (t2 :: ts) ds rest hv2 hr2 hd.2
          simp only [read_tuple_impl, List.map_cons, List.flatten_cons, List.append_assoc,
            List.headD_cons, List.tail_cons, write_tuple_impl]
          rw [binary_in_written T m t d _ hv.1 hr.1 hd.1]
          simp only [List.map_cons, List.flatten_cons, List.append_assoc] at ih
          simp only [ih, Val.all_decoded_into, List.headD_cons, List.tail_cons]
          rw [write_tuple_impl_snd T (m2 :: ms) (binary_out T [] m).1]
theorem read_loop_written (T : Target) : ∀ (es : List Val) (e : Ty) (t : List Val)
    (acc : Nat) (rest : List Byte),
    Val.all_have_type es e = true → Val.all_in_range T es = true →
      read_loop T (binary_in T e) (default_init T e) es.length
          ⟨(es.map (written T)).flatten ++ rest, false⟩ t acc =
        (⟨rest, false⟩, t ++ es, (write_elements T [] acc es).2)
  | [], e, t, acc, rest, _, _ => by simp [read_loop, write_elements]
  | x :: es, e, t, acc, rest, hv, hr => by
    simp only [Val.all_have_type, Val.all_in_range, Bool.and_eq_true] at hv hr
    simp only [List.length_cons, read_loop, List.map_cons, List.flatten_cons,
      List.append_assoc, write_elements]
    rw [binary_in_written T x e (default_init T e) _ hv.1 hr.1
      (is_blank_has_type _ _ (default_init_blank T e))]
    simp only [decoded_into_blank x e _ hv.1 (default_init_blank T e)]
    rw [read_loop_written T es e _ _ rest hv.2 hr.2, write_elements_snd T es (binary_out T [] x).1]
    simp
end

theorem counts_sum (T : Target) : ∀ (ms : List Val),
    ((ms.map (written T)).flatten).length < size_mod T →
      (ms.map (fun m => (binary_out T [] m).2)).sum = ((ms.map (written T)).flatten).length := by
  intro ms
  induction ms with
  | nil => intro _; simp
  | cons m ms ih =>
    intro h
    have h1 : (written T m).length + ((ms.map (written T)).flatten).length < size_mod T := by
      simpa using h
    simp only [List.map_cons, List.sum_cons, List.flatten_cons, List.length_append]
    rw [binary_out_count T m [] (by omega), ih (by omega)]

theorem seq_count (T : Target) (stream : List Byte) (es : List Val)
    (h : (written T (.seq es)).length < size_mod T) :
    (binary_out T stream (.seq es)).2 =
      T.size_width + (es.map (fun e => (binary_out T [] e).2)).sum := by
  rw [binary_out_count T _ stream h]
  rw [written_seq] at h ⊢
  simp only [List.length_append, object_bytes_length] at h ⊢
  rw [counts_sum T es (by omega)]

/-! ## Wire format -/

/-- C3: for every sequence, `binary_out` appends exactly the encoding of `size()` as a trivial
value of the size type (`sizeof (size_type)` bytes that hold the number of elements) followed by
the encodings of the elements in iteration order, and nothing else. -/
theorem sequence_wire_format (T : Target) (stream : List Byte) (es : List Val)
    (h : es.length < size_mod T) :
    (binary_out T stream (.seq es)).1 =
      stream ++ (binary_out T [] (.scalar (object_bytes T T.size_width es.length))).1 ++
        (es.map (fun e => (binary_out T [] e).1)).flatten ∧
    (binary_out T [] (.scalar (object_bytes T T.size_width es.length))).1.length
      = T.size_width ∧
    object_value T (binary_out T [] (.scalar (object_bytes T T.size_width es.length))).1
      = es.length := by
  have h1 : (binary_out T [] (.scalar (object_bytes T T.size_width es.length))).1
      = object_bytes T T.size_width es.length := written_scalar T _
  rw [h1]
  refine ⟨?_, object_bytes_length _ _ _, object_value_size T _ h⟩
  rw [binary_out_fst, written_seq, List.append_assoc]
  rfl

theorem sequence_wire_format_witness :
    [int_val LP64 1, int_val LP64 2, int_val LP64 3].length < size_mod LP64 ∧
    (binary_out LP64 [] (vector_123 LP64)).1 =
      [] ++ (binary_out LP64 [] (.scalar (object_bytes LP64 8 3))).1 ++
        ([int_val LP64 1, int_val LP64 2, int_val LP64 3].map
          (fun e => (binary_out LP64 [] e).1)).flatten :=
  ⟨by decide,
    (sequence_wire_format LP64 [] [int_val LP64 1, int_val LP64 2, int_val LP64 3]
      (by decide)).1⟩

/-- C5 (counterexample): where `std::size_t` is 8 bytes wide, `std::vector<int>{1, 2, 3}` is
written as 20 bytes and `binary_out` returns 20, not 16. -/
theorem vector_123_is_20_bytes_on_lp64 :
    (binary_out LP64 [] (vector_123 LP64)).1.length = 20 ∧
    (binary_out LP64 [] (vector_123 LP64)).2 = 20 ∧
    ¬ ((binary_out LP64 [] (vector_123 LP64)).1.length = 16 ∧
      (binary_out LP64 [] (vector_123 LP64)).2 = 16) := by
  decide

/-- C5 (amended): writing `std::vector<int>{1, 2, 3}` produces `sizeof (size_type) + 12` bytes,
the count `3` in the size type followed by the encodings of `1`, `2` and `3`, and `binary_out`
returns that number; reading the stream into an empty vector yields `[1, 2, 3]` in the same
order, consumes the whole stream and returns the same number. -/
theorem vector_123_scenario (T : Target) (h : 0 < T.size_width) :
    (binary_out T [] (vector_123 T)).1 =
      object_bytes T T.size_width 3 ++ object_bytes T 4 1 ++ object_bytes T 4 2 ++
        object_bytes T 4 3 ∧
    object_value T (object_bytes T T.size_width 3) = 3 ∧
    (binary_out T [] (vector_123 T)).1.length = T.size_width + 12 ∧
    (binary_out T [] (vector_123 T)).2 = T.size_width + 12 ∧
    binary_in T (.seq int_type) ⟨(binary_out T [] (vector_123 T)).1, false⟩ (.seq []) =
      (⟨[], false⟩, vector_123 T, T.size_width + 12) := by
  have hbig := size_mod_large T h
  have h3 : 3 < size_mod T := by omega
  have hw : (binary_out T [] (vector_123 T)).1 = written T (vector_123 T) := rfl
  have hbytes : written T (vector_123 T) =
      object_bytes T T.size_width 3 ++ object_bytes T 4 1 ++ object_bytes T 4 2 ++
        object_bytes T 4 3 := by
    simp [vector_123, written_seq, int_val, written_scalar]
  have hlen : (written T (vector_123 T)).length = T.size_width + 12 := by
    rw [hbytes]
    simp only [List.length_append, object_bytes_length]
  have hcount : (binary_out T [] (vector_123 T)).2 = T.size_width + 12 := by
    rw [binary_out_count T _ [] (by omega), hlen]
  have hty : (vector_123 T).has_type (.seq int_type) = true := by
    simp [vector_123, int_val, int_type, Val.has_type, Val.all_have_type, object_bytes_length]
  have hrange : (vector_123 T).in_range T = true := by
    simp [vector_123, int_val, Val.in_range, Val.all_in_range, h3]
  have hin := binary_in_written T (vector_123 T) (.seq int_type) (.seq []) [] hty hrange
    (by simp [Val.has_type, Val.all_have_type])
  rw [List.append_nil, hcount] at hin
  refine ⟨?_, object_value_size T 3 h3, ?_, hcount, ?_⟩
  · rw [hw, hbytes]
  · rw [hw, hlen]
  · rw [hw, hin]
    simp [vector_123, Val.decoded_into, Val.elems]

theorem vector_123_scenario_witness :
    0 < ILP32.size_width ∧
    (binary_out ILP32 [] (vector_123 ILP32)).1.length = 16 ∧
    (binary_out ILP32 [] (vector_123 ILP32)).2 = 16 ∧
    binary_in ILP32 (.seq int_type) ⟨(binary_out ILP32 [] (vector_123 ILP32)).1, false⟩
      (.seq []) = (⟨[], false⟩, vector_123 ILP32, 16) :=
  ⟨by decide, (vector_123_scenario ILP32 (by decide)).2.2.1,
    (vector_123_scenario ILP32 (by decide)).2.2.2.1,
    (vector_123_scenario ILP32 (by decide)).2.2.2.2⟩

/-- C6: writing an empty sequence appends exactly the `sizeof (size_type)` zero bytes of the
count `0` and returns `sizeof (size_type)`; reading a stream that starts with those bytes into
an empty destination leaves it empty, extracts only those bytes (whatever follows is left
unread and the stream stays good) and returns `sizeof (size_type)`. -/
theorem empty_sequence (T : Target) (stream rest : List Byte) (e : Ty) :
    binary_out T stream (.seq []) = (stream ++ List.replicate T.size_width 0, T.size_width) ∧
    binary_in T (.seq e) ⟨List.replicate T.size_width 0 ++ rest, false⟩ (.seq []) =
      (⟨rest, false⟩, .seq [], T.size_width) := by
  constructor
  · simp [binary_out, binary_out_trivial, write_elements, object_bytes_zero]
  · have hz : object_value T (List.replicate T.size_width 0) = 0 := by
      rw [← object_bytes_zero T T.size_width]
      exact object_value_size T 0 (size_mod_pos T)
    simp only [binary_in, binary_in_trivial, Val.elems]
    rw [read_exact _ _ _ T.size_width (by simp) (by simp)]
    simp [hz, read_loop]

/-! ## Short sources -/

/-- C9 (counterexample): on a good source holding 2 bytes, `binary_in` for the 4-byte `int`
returns 4 although only 2 bytes were extracted. -/
theorem scalar_read_returns_width_on_short_source :
    (binary_in LP64 int_type ⟨[1, 2], false⟩ (default_init LP64 int_type)).2.2 = 4 ∧
    IStream.consumed ⟨[1, 2], false⟩
      (binary_in LP64 int_type ⟨[1, 2], false⟩ (default_init LP64 int_type)).1 = 2 ∧
    (binary_in LP64 int_type ⟨[1, 2], false⟩ (default_init LP64 int_type)).1.failed = true := by
  decide

/-- C9 (amended): for every trivial type of width `W` and every source, `binary_in` returns
`W`; the number of bytes it extracted is `W` when the source is good and holds at least `W`
bytes, the number of remaining bytes when it is good and holds fewer, and `0` when the source
is not good. -/
theorem scalar_read_count (T : Target) (w : Nat) (s : IStream) (d : Val) :
    (binary_in T (.scalar w) s d).2.2 = w ∧
    IStream.consumed s (binary_in T (.scalar w) s d).1 =
      (if s.failed = true then 0 else min w s.data.length) := by
  refine ⟨by simp [binary_in, binary_in_trivial], ?_⟩
  simp only [binary_in, binary_in_trivial, IStream.read, IStream.consumed]
  by_cases hf : s.failed = true
  · simp [hf]
  · by_cases hw : w ≤ s.data.length
    · simp [hf, hw]
      omega
    · simp [hf, hw]
      omega

/-! ## Dispatch -/

/-- C8 (counterexample): for a type that satisfies both `tuple_type` and `sequence_container`
the call has no best overload, so the tuple routine is not selected; the same holds for a type
that satisfies both `trivial_type` and `tuple_type`, such as `std::array<int, 3>`. -/
theorem no_precedence_between_constraints :
    resolve ⟨false, true, true⟩ = none ∧ resolve ⟨false, true, true⟩ ≠ some .tuple ∧
    resolve ⟨true, true, false⟩ = none ∧ resolve ⟨true, true, false⟩ ≠ some .trivial := by
  decide

/-- C8 (amended): a routine is selected exactly for the types that satisfy exactly one of the
three constraints, and it is the routine of that constraint; a type that satisfies more than
one constraint selects no routine (the call is ambiguous, the constraints are not ranked), and
a type that satisfies none selects the declaration that has no definition. -/
theorem dispatch_by_single_constraint (c : Constraints) :
    (resolve c = some .trivial ↔
      (c.trivial_type = true ∧ c.tuple_type = false ∧ c.sequence_container = false)) ∧
    (resolve c = some .tuple ↔
      (c.trivial_type = false ∧ c.tuple_type = true ∧ c.sequence_container = false)) ∧
    (resolve c = some .sequence ↔
      (c.trivial_type = false ∧ c.tuple_type = false ∧ c.sequence_container = true)) ∧
    (resolve c = some .declared ↔
      (c.trivial_type = false ∧ c.tuple_type = false ∧ c.sequence_container = false)) ∧
    (resolve c = none ↔
      ((c.trivial_type = true ∧ c.tuple_type = true) ∨
        (c.trivial_type = true ∧ c.sequence_container = true) ∨
        (c.tuple_type = true ∧ c.sequence_container = true))) := by
  obtain ⟨a, b, d⟩ := c
  cases a <;> cases b <;> cases d <;> decide

/-! ## Verbatim decoding and appending -/

/-- C11: for every trivial type of width `W`, every `W` bytes and whatever follows them,
`binary_in` accepts the bytes (the stream stays good and only they are extracted) and leaves in
the destination a value that `binary_out` encodes as exactly the same `W` bytes. -/
theorem verbatim_decoding (T : Target) (w : Nat) (bs rest : List Byte) (d : Val)
    (hb : bs.length = w) (hd : d.has_type (.scalar w) = true) :
    (binary_in T (.scalar w) ⟨bs ++ rest, false⟩ d).1 = ⟨rest, false⟩ ∧
    binary_out T [] (binary_in T (.scalar w) ⟨bs ++ rest, false⟩ d).2.1 = (bs, w) := by
  cases d <;> simp_all [Val.has_type]
  rename_i db
  subst hb
  simp [binary_in, binary_in_trivial, Val.raw, read_exact bs rest db _ rfl hd, binary_out,
    binary_out_trivial]

theorem verbatim_decoding_witness :
    (binary_in LP64 (.scalar 4) ⟨[255, 0, 128, 127] ++ [9], false⟩
      (default_init LP64 (.scalar 4))).1 = ⟨[9], false⟩ ∧
    binary_out LP64 [] (binary_in LP64 (.scalar 4) ⟨[255, 0, 128, 127] ++ [9], false⟩
      (default_init LP64 (.scalar 4))).2.1 = ([255, 0, 128, 127], 4) :=
  verbatim_decoding LP64 4 [255, 0, 128, 127] [9] (default_init LP64 (.scalar 4)) (by decide)
    (by decide)

theorem set_insert_last (less : Val → Val → Bool)
    (hasym : ∀ a b, less a b = true → less b a = false) (x : Val) :
    ∀ (t : List Val), (∀ a ∈ t, less a x = true) → set_insert less t x = t ++ [x] := by
  intro t
  induction t with
  | nil => intro _; rfl
  | cons a t ih =>
    intro h
    have ha : less a x = true := h a (List.mem_cons_self a t)
    simp only [set_insert, hasym a x ha, ha, if_true, List.cons_append]
    rw [ih (fun b hb => h b (List.mem_cons_of_mem a hb))]
    simp

theorem read_loop_set_written (T : Target) (less : Val → Val → Bool)
    (hasym : ∀ a b, less a b = true → less b a = false) (e : Ty) (rest : List Byte) :
    ∀ (es : List Val) (t : List Val) (acc : Nat),
      (t ++ es).Pairwise (fun a b => less a b = true) →
      Val.all_have_type es e = true → Val.all_in_range T es = true →
        read_loop_set T less (binary_in T e) (default_init T e) es.length
            ⟨(es.map (written T)).flatten ++ rest, false⟩ t acc =
          (⟨rest, false⟩, t ++ es, (write_elements T [] acc es).2) := by
  intro es
  induction es with
  | nil => intro t acc _ _ _; simp [read_loop_set, write_elements]
  | cons x es ih =>
    intro t acc hp hv hr
    simp only [Val.all_have_type, Val.all_in_range, Bool.and_eq_true] at hv hr
    have hstep := binary_in_written T x e (default_init T e)
      ((es.map (written T)).flatten ++ rest) hv.1 hr.1
      (is_blank_has_type _ _ (default_init_blank T e))
    rw [decoded_into_blank x e _ hv.1 (default_init_blank T e)] at hstep
    have hlast : ∀ a ∈ t, less a x = true := by
      intro a ha
      exact (List.pairwise_append.mp hp).2.2 a ha x (List.mem_cons_self x es)
    have hp2 : ((t ++ [x]) ++ es).Pairwise (fun a b => less a b = true) := by
      simpa using hp
    simp only [List.length_cons, read_loop_set, List.map_cons, List.flatten_cons,
      List.append_assoc, hstep, write_elements]
    rw [set_insert_last less hasym x t hlast, ih (t ++ [x]) _ hp2 hv.2 hr.2,
      write_elements_snd T es (binary_out T [] x).1]
    simp

/-- C13: for every `std::set` (its elements `s` in iteration order, strictly ascending for the
comparison of the set), `binary_out` writes the count and then the elements in ascending order,
and `binary_in`, which inserts each decoded element with the hint `t.end()`, run on those bytes
into an empty set yields the set with the same elements in the same iteration order and returns
the byte count `binary_out` returned. -/
theorem sorted_set_restored (T : Target) (less : Val → Val → Bool) (e : Ty) (s : List Val)
    (rest : List Byte) (hasym : ∀ a b, less a b = true → less b a = false)
    (hs : s.Pairwise (fun a b => less a b = true))
    (hv : Val.all_have_type s e = true) (hr : Val.in_range T (.seq s) = true) :
    (binary_out T [] (.seq s)).1 =
      object_bytes T T.size_width s.length ++
        (s.map (fun x => (binary_out T [] x).1)).flatten ∧
    binary_in_set T less e ⟨(binary_out T [] (.seq s)).1 ++ rest, false⟩ [] =
      (⟨rest, false⟩, s, (binary_out T [] (.seq s)).2) := by
  have hw : (binary_out T [] (.seq s)).1 = written T (.seq s) := rfl
  have hf : (fun x => (binary_out T [] x).1) = written T := rfl
  simp only [Val.in_range, Bool.and_eq_true, decide_eq_true_eq] at hr
  rw [hw, hf, written_seq]
  refine ⟨rfl, ?_⟩
  simp only [binary_in_set, binary_in_trivial, List.append_assoc]
  rw [read_exact _ _ _ T.size_width (object_bytes_length _ _ _) (by simp)]
  simp only [object_value_size T _ hr.1]
  rw [read_loop_set_written T less hasym e rest s [] T.size_width (by simpa using hs) hv hr.2]
  simp only [List.nil_append, binary_out, binary_out_trivial, object_bytes_length]
  rw [write_elements_snd T s (object_bytes T T.size_width s.length)]

theorem unsigned_less_asymm (T : Target) (a b : Val) (h : unsigned_less T a b = true) :
    unsigned_less T b a = false := by
  simp only [unsigned_less, decide_eq_true_eq, decide_eq_false_iff_not] at h ⊢
  omega

theorem sorted_set_restored_witness :
    [int_val LP64 1, int_val LP64 2, int_val LP64 3].Pairwise
      (fun a b => unsigned_less LP64 a b = true) ∧
    binary_in_set LP64 (unsigned_less LP64) int_type
      ⟨(binary_out LP64 [] (.seq [int_val LP64 1, int_val LP64 2, int_val LP64 3])).1 ++ [],
        false⟩ [] =
      (⟨[], false⟩, [int_val LP64 1, int_val LP64 2, int_val LP64 3],
        (binary_out LP64 [] (.seq [int_val LP64 1, int_val LP64 2, int_val LP64 3])).2) :=
  ⟨by decide,
    (sorted_set_restored LP64 (unsigned_less LP64) int_type
      [int_val LP64 1, int_val LP64 2, int_val LP64 3] [] (unsigned_less_asymm LP64)
      (by decide) (by decide) (by decide)).2⟩

/-! ## The two files -/

theorem all_as_concepts_length : ∀ (es : List Sfinae.Val),
    (Sfinae.Val.all_as_concepts es).length = es.length
  | [] => rfl
  | e :: es => by simp [Sfinae.Val.all_as_concepts, all_as_concepts_length es]

theorem all_as_concepts_append : ∀ (es : List Sfinae.Val) (x : Sfinae.Val),
    Sfinae.Val.all_as_concepts (es ++ [x]) =
      Sfinae.Val.all_as_concepts es ++ [Sfinae.Val.as_concepts x]
  | [], x => by simp [Sfinae.Val.all_as_concepts]
  | e :: es, x => by simp [Sfinae.Val.all_as_concepts, all_as_concepts_append es x]

theorem as_concepts_raw (d : Sfinae.Val) : (Sfinae.Val.as_concepts d).raw = d.raw := by
  cases d <;> simp [Sfinae.Val.as_concepts, Val.raw, Sfinae.Val.raw]

theorem as_concepts_elems (d : Sfinae.Val) :
    (Sfinae.Val.as_concepts d).elems = Sfinae.Val.all_as_concepts d.elems := by
  cases d <;> simp [Sfinae.Val.as_concepts, Val.elems, Sfinae.Val.elems,
    Sfinae.Val.all_as_concepts]

theorem as_concepts_default_init (T : Target) (t : Sfinae.Ty) :
    Sfinae.Val.as_concepts (Sfinae.default_init T t) = default_init T t.as_concepts := by
  cases t <;> simp [Sfinae.default_init, Sfinae.Val.as_concepts, Sfinae.Ty.as_concepts,
    default_init, Sfinae.Val.all_as_concepts]

mutual
theorem sfinae_binary_out_eq (T : Target) : ∀ (v : Sfinae.Val) (stream : List Byte),
    Sfinae.binary_out T stream v = binary_out T stream (Sfinae.Val.as_concepts v)
  | .pod bs, stream => by
    simp [Sfinae.binary_out, Sfinae.binary_out_pod, Sfinae.Val.as_concepts, binary_out,
      binary_out_trivial]
  | .container es, stream => by
    simp only [Sfinae.binary_out, Sfinae.binary_out_pod, Sfinae.Val.as_concepts, binary_out,
      binary_out_trivial, all_as_concepts_length]
    exact sfinae_write_elements_eq T es _ _
theorem sfinae_write_elements_eq (T : Target) : ∀ (es : List Sfinae.Val) (stream : List Byte)
    (n : Nat),
    Sfinae.write_elements T stream n es =
      write_elements T stream n (Sfinae.Val.all_as_concepts es)
  | [], stream, n => by simp [Sfinae.write_elements, Sfinae.Val.all_as_concepts, write_elements]
  | e :: es, stream, n => by
    simp only [Sfinae.write_elements, Sfinae.Val.all_as_concepts, write_elements]
    rw [sfinae_binary_out_eq T e stream]
    exact sfinae_write_elements_eq T es _ _
end

theorem sfinae_read_loop_eq (T : Target) (step : IStream → Sfinae.Val → IStream × Sfinae.Val × Nat)
    (step2 : IStream → Val → IStream × Val × Nat) (fresh : Sfinae.Val)
    (hstep : ∀ s d, step2 s (Sfinae.Val.as_concepts d) =
      ((step s d).1, Sfinae.Val.as_concepts (step s d).2.1, (step s d).2.2)) :
    ∀ (n : Nat) (s : IStream) (t : List Sfinae.Val) (acc : Nat),
      read_loop T step2 (Sfinae.Val.as_concepts fresh) n s (Sfinae.Val.all_as_concepts t) acc =
        ((Sfinae.read_loop T step fresh n s t acc).1,
          Sfinae.Val.all_as_concepts (Sfinae.read_loop T step fresh n s t acc).2.1,
          (Sfinae.read_loop T step fresh n s t acc).2.2) := by
  intro n
  induction n with
  | zero => intro s t acc; rfl
  | succ n ih =>
    intro s t acc
    simp only [read_loop, Sfinae.read_loop, hstep, ← all_as_concepts_append]
    exact ih _ _ _

theorem sfinae_binary_in_eq (T : Target) : ∀ (t : Sfinae.Ty) (s : IStream) (d : Sfinae.Val),
    binary_in T t.as_concepts s (Sfinae.Val.as_concepts d) =
      ((Sfinae.binary_in T t s d).1, Sfinae.Val.as_concepts (Sfinae.binary_in T t s d).2.1,
        (Sfinae.binary_in T t s d).2.2) := by
  intro t
  induction t with
  | pod w =>
    intro s d
    simp [Sfinae.Ty.as_concepts, binary_in, binary_in_trivial, Sfinae.binary_in,
      Sfinae.binary_in_pod, as_concepts_raw, Sfinae.Val.as_concepts]
  | container e ih =>
    intro s d
    simp only [Sfinae.Ty.as_concepts, binary_in, binary_in_trivial, Sfinae.binary_in,
      Sfinae.binary_in_pod, as_concepts_elems, Sfinae.Val.as_concepts,
      ← as_concepts_default_init]
    rw [sfinae_read_loop_eq T (Sfinae.binary_in T e) (binary_in T e.as_concepts)
      (Sfinae.default_init T e) ih]

/-- C16: for every value of a type both files accept (a POD type, or a `std::vector` or
`std::list` of such types, nested to any depth) the `binary_out` of the SFINAE file and the
`binary_out` of the concepts file append the same bytes and return the same count, and on every
stream the `binary_in` of the SFINAE file (`emplace_back`) and the `binary_in` of the concepts
file (`insert` at `end()`) leave the same stream, produce the same destination and return the
same count. -/
theorem dispatch_mechanisms_agree (T : Target) (v : Sfinae.Val) (stream : List Byte)
    (t : Sfinae.Ty) (s : IStream) (d : Sfinae.Val) :
    Sfinae.binary_out T stream v = binary_out T stream (Sfinae.Val.as_concepts v) ∧
    (Sfinae.binary_in T t s d).1 =
      (binary_in T t.as_concepts s (Sfinae.Val.as_concepts d)).1 ∧
    Sfinae.Val.as_concepts (Sfinae.binary_in T t s d).2.1 =
      (binary_in T t.as_concepts s (Sfinae.Val.as_concepts d)).2.1 ∧
    (Sfinae.binary_in T t s d).2.2 =
      (binary_in T t.as_concepts s (Sfinae.Val.as_concepts d)).2.2 := by
  refine ⟨sfinae_binary_out_eq T v stream, ?_, ?_, ?_⟩ <;> rw [sfinae_binary_in_eq T t s d]

/-! ## The output stream that may have failed -/

theorem all_tuple_free_mem (es : List Val) (x : Val) (h : Val.all_tuple_free es = true)
    (hx : x ∈ es) : x.tuple_free = true := by
  induction es with
  | nil => simp at hx
  | cons y ys ih =>
    simp only [Val.all_tuple_free, Bool.and_eq_true] at h
    rcases List.mem_cons.mp hx with rfl | hmem
    · exact h.1
    · exact ih h.2 hmem

mutual
theorem binary_out_to_good (T : Target) : ∀ (v : Val) (d : List Byte),
    v.tuple_free = true →
      binary_out_to T ⟨d, false⟩ v = (⟨(binary_out T d v).1, false⟩, (binary_out T d v).2)
  | .scalar bs, d, _ => by
    simp [binary_out_to, binary_out_trivial_to, OStream.write, binary_out, binary_out_trivial]
  | .tuple ms, d, h => by simp [Val.tuple_free] at h
  | .seq es, d, h => by
    simp only [Val.tuple_free] at h
    simp only [binary_out_to, binary_out_trivial_to, OStream.write, binary_out,
      binary_out_trivial, Bool.false_eq_true, if_false]
    exact write_elements_to_good T es _ _ h
theorem write_elements_to_good (T : Target) : ∀ (es : List Val) (d : List Byte) (n : Nat),
    Val.all_tuple_free es = true →
      write_elements_to T ⟨d, false⟩ n es =
        (⟨(write_elements T d n es).1, false⟩, (write_elements T d n es).2)
  | [], d, n, _ => by simp [write_elements_to, write_elements]
  | e :: es, d, n, h => by
    simp only [Val.all_tuple_free, Bool.and_eq_true] at h
    simp only [write_elements_to, write_elements, binary_out_to_good T e d h.1]
    exact write_elements_to_good T es _ _ h.2
end

mutual
theorem binary_out_to_failed (T : Target) : ∀ (v : Val) (d : List Byte),
    v.tuple_free = true →
      binary_out_to T ⟨d, true⟩ v = (⟨d, true⟩, (binary_out T [] v).2)
  | .scalar bs, d, _ => by
    simp [binary_out_to, binary_out_trivial_to, OStream.write, binary_out, binary_out_trivial]
  | .tuple ms, d, h => by simp [Val.tuple_free] at h
  | .seq es, d, h => by
    simp only [Val.tuple_free] at h
    simp only [binary_out_to, binary_out_trivial_to, OStream.write, binary_out,
      binary_out_trivial, if_true]
    rw [write_elements_to_failed T es d _ h, write_elements_snd T es ([] ++ _)]
theorem write_elements_to_failed (T : Target) : ∀ (es : List Val) (d : List Byte) (n : Nat),
    Val.all_tuple_free es = true →
      write_elements_to T ⟨d, true⟩ n es = (⟨d, true⟩, (write_elements T [] n es).2)
  | [], d, n, _ => by simp [write_elements_to, write_elements]
  | e :: es, d, n, h => by
    simp only [Val.all_tuple_free, Bool.and_eq_true] at h
    simp only [write_elements_to, write_elements, binary_out_to_failed T e d h.1]
    rw [write_elements_to_failed T es d _ h.2, write_elements_snd T es (binary_out T [] e).1]
end

/-- C2 (counterexample): on an output stream that is not `good()`, `binary_out` returns 4 for
the `int` 4 and 20 for `std::vector<int>{1, 2, 3}` (8-byte `std::size_t`) and appends no
byte. -/
theorem failed_sink_still_counts :
    (binary_out_to LP64 ⟨[], true⟩ (int_val LP64 4)).2 = 4 ∧
    (binary_out_to LP64 ⟨[], true⟩ (int_val LP64 4)).1.data = [] ∧
    (binary_out_to LP64 ⟨[], true⟩ (vector_123 LP64)).2 = 20 ∧
    (binary_out_to LP64 ⟨[], true⟩ (vector_123 LP64)).1.data = [] ∧
    (binary_out_to LP64 ⟨[], true⟩ (int_val LP64 4)).2 ≠
      (binary_out_to LP64 ⟨[], true⟩ (int_val LP64 4)).1.data.length := by
  decide

/-- C2 (amended): for every value built from trivial objects and sequences whose encoding is
shorter than `2 ^ (8 * sizeof (std::size_t))`: on an output stream that is `good()` the number
`binary_out` returns is the number of bytes it appended; on a stream that is not `good()` it
appends nothing and returns the same number; the number is the width of the object for a
trivial type and `sizeof (size_type)` plus the sum of the elements' counts for a sequence. -/
theorem byte_count_on_good_sink (T : Target) (stream : OStream) (v : Val)
    (hfree : v.tuple_free = true)
    (h : (binary_out_to T ⟨[], false⟩ v).1.data.length < size_mod T) :
    (stream.failed = false → ∃ appended,
      (binary_out_to T stream v).1 = ⟨stream.data ++ appended, false⟩ ∧
      (binary_out_to T stream v).2 = appended.length) ∧
    (stream.failed = true →
      (binary_out_to T stream v).1 = stream ∧
      (binary_out_to T stream v).2 = (binary_out_to T ⟨[], false⟩ v).2) ∧
    (∀ bs, v = .scalar bs → (binary_out_to T stream v).2 = bs.length) ∧
    (∀ es, v = .seq es →
      (binary_out_to T stream v).2 =
        T.size_width + (es.map (fun e => (binary_out_to T ⟨[], false⟩ e).2)).sum) := by
  rw [binary_out_to_good T v [] hfree] at h
  have hlen : (written T v).length < size_mod T := h
  have hcount : ∀ s2 : OStream, (binary_out_to T s2 v).2 = (binary_out T [] v).2 := by
    intro s2
    obtain ⟨d, f⟩ := s2
    cases f
    · rw [binary_out_to_good T v d hfree, binary_out_snd]
    · rw [binary_out_to_failed T v d hfree]
  obtain ⟨d, f⟩ := stream
  refine ⟨?_, ?_, ?_, ?_⟩
  · intro hf
    simp only at hf
    subst hf
    rw [binary_out_to_good T v d hfree]
    exact ⟨written T v, by rw [binary_out_fst], binary_out_count T v d hlen⟩
  · intro hf
    simp only at hf
    subst hf
    rw [binary_out_to_failed T v d hfree, binary_out_to_good T v [] hfree]
    exact ⟨rfl, rfl⟩
  · intro bs hbs
    subst hbs
    rw [hcount]
    simp [binary_out, binary_out_trivial]
  · intro es hes
    subst hes
    rw [hcount, seq_count T [] es hlen]
    congr 1
    congr 1
    apply List.map_congr_left
    intro x hx
    simp only [Val.tuple_free] at hfree
    rw [binary_out_to_good T x [] (all_tuple_free_mem es x hfree hx)]

theorem byte_count_on_good_sink_witness :
    (nested_lists LP64).tuple_free = true ∧
    (binary_out_to LP64 ⟨[], false⟩ (nested_lists LP64)).1.data.length < size_mod LP64 ∧
    (binary_out_to LP64 ⟨[], false⟩ (nested_lists LP64)).2 = 72 ∧
    ((⟨[], false⟩ : OStream).failed = false → ∃ appended,
      (binary_out_to LP64 ⟨[], false⟩ (nested_lists LP64)).1 = ⟨[] ++ appended, false⟩ ∧
      (binary_out_to LP64 ⟨[], false⟩ (nested_lists LP64)).2 = appended.length) :=
  ⟨by decide, by decide, by decide,
    (byte_count_on_good_sink LP64 ⟨[], false⟩ (nested_lists LP64) (by decide) (by decide)).1⟩

/-! ## The decode loop on a container of bounded capacity -/

end BinaryStreamers
